import Mathlib

/-
Verification development for the sales-analytics ingestion pipeline
(src/app.py).  The pipeline is shallowly embedded: spreadsheet cells are
modelled by an inductive `Cell` type (numbers are modelled as rationals;
numeric strings are modelled as integer-rendering strings), a raw sheet by
`RawTable`, and each processing step of `load_and_process_data` by an
executable Lean function translated from the corresponding source lines.
Pandas-specific behaviours that the source relies on are modelled
explicitly: `pd.to_numeric(errors := coerce)` returns `none` on
unparseable input, `.fillna(0)` maps `none` to `0`, `duplicated` treats
missing key values as equal to each other, and `groupby` (default
`dropna := True`) silently drops rows whose group key contains a missing
value.  Group output order is modelled as first-occurrence order; no claim
below depends on the relative order of group keys.
-/

/-- A spreadsheet cell: a number, a text value, or a missing value (NaN). -/
inductive Cell where
  | num (x : ℚ)
  | str (s : String)
  | null
deriving DecidableEq

/-- ASCII upper-casing of one character, as Python `str.upper` acts on the
header alphabets in play. -/
def upperChar (c : Char) : Char :=
  if 'a' ≤ c ∧ c ≤ 'z' then Char.ofNat (c.toNat - 32) else c

/-- Model of Python `str.upper()` on a header name. -/
def upperStr (s : String) : String :=
  ⟨s.data.map upperChar⟩

/-- Whitespace recognizer for Python `str.strip()`. -/
def isSpaceChar (c : Char) : Bool :=
  c = ' ' || c = '\t' || c = '\n' || c = '\r'

/-- Characters of a string with surrounding whitespace removed. -/
def trimChars (l : List Char) : List Char :=
  ((l.dropWhile isSpaceChar).reverse.dropWhile isSpaceChar).reverse

/-- Model of Python `str.strip()`. -/
def trimStr (s : String) : String :=
  ⟨trimChars s.data⟩

/-- Value of a decimal digit character. -/
def digitVal? (c : Char) : Option Nat :=
  if '0' ≤ c ∧ c ≤ '9' then some (c.toNat - 48) else none

/-- Accumulating decimal parse of a digit run; fails on any non-digit. -/
def parseDigitsAux (acc : Nat) : List Char → Option Nat
  | [] => some acc
  | c :: cs =>
      match digitVal? c with
      | some d => parseDigitsAux (acc * 10 + d) cs
      | none => none

/-- Parse a non-empty run of decimal digits. -/
def parseNatChars (l : List Char) : Option Nat :=
  if l.isEmpty then none else parseDigitsAux 0 l

/-- Parse an optionally-negated decimal integer. -/
def parseIntChars (l : List Char) : Option Int :=
  match l with
  | '-' :: rest => (parseNatChars rest).map (fun n => -(n : Int))
  | _ => (parseNatChars l).map (fun n => (n : Int))

/-- Model of `pd.to_numeric(c, errors='coerce')`: numbers pass through,
numeric text parses (numeric strings are modelled as integer-valued text),
everything else coerces to missing. -/
def toNumeric : Cell → Option ℚ
  | Cell.num x => some x
  | Cell.str s => (parseIntChars (trimChars s.data)).map (fun n => (n : ℚ))
  | Cell.null => none

/-- Model of Python `str(cell)` as used by `.astype(str)`. -/
def cellToStr : Cell → String
  | Cell.num x => if x.den = 1 then toString x.num else toString x.num ++ "/" ++ toString x.den
  | Cell.str s => s
  | Cell.null => "nan"

/-- Model of `clean_columns` (src/app.py lines 88-93): header names are cast
to text and stripped of surrounding whitespace. -/
def clean_columns (headers : List String) : List String :=
  headers.map trimStr

/-- Model of the dictionary `{col.upper(): col for col in df.columns}` built
inside `find_column` (src/app.py line 101): a lookup that returns the LAST
column whose upper-cased name equals the key (later dictionary insertions
overwrite earlier ones). -/
def upperLookup (cols : List String) (key : String) : Option String :=
  match cols with
  | [] => none
  | c :: rest =>
      match upperLookup rest key with
      | some d => some d
      | none => if upperStr c == key then some c else none

/-- Model of `find_column` (src/app.py lines 100-105): return the actual
header matching the first alias in `possible_names` whose upper-cased form
occurs among the upper-cased headers; `none` when no alias matches. -/
def find_column (cols : List String) (possible_names : List String) : Option String :=
  match possible_names with
  | [] => none
  | n :: rest =>
      match upperLookup cols (upperStr n) with
      | some c => some c
      | none => find_column cols rest

/-- Alias list for the style identifier (src/app.py line 108). -/
def style_aliases : List String :=
  ["Style_ID", "STYLE_ID", "StyleID", "SKU", "STYLE CODE", "STYLE-CODE", "Style Code"]

/-- Alias list for the year column (src/app.py line 109). -/
def year_aliases : List String := ["YEAR", "Year", "SALES_YEAR", "Sale Year"]

/-- Alias list for the month column (src/app.py line 110). -/
def month_aliases : List String := ["MONTH", "Month", "SALES_MONTH", "Sale Month"]

/-- Alias list for the sales-quantity column (src/app.py line 111). -/
def qty_aliases : List String :=
  ["Qty", "QTY", "sales Qty", "sales_Qty", "Sales_Qty", "Sales Qty", "Quantity", "Sales_QTY", "SALES"]

/-- Alias list for the opening-stock column (src/app.py lines 112-113). -/
def opening_stock_aliases : List String :=
  ["Opening_stock", "Opening Stock", "OPENING_STOCK", "Opening_Stock",
   "opening stock", "OpeningStock", "OP_STOCK", "Opening_Stock_Qty"]

/-- The `required_cols_sales` mapping (src/app.py lines 116-122): canonical
field name paired with the resolution outcome, in source dictionary order. -/
def required_cols_sales (cols : List String) : List (String × Option String) :=
  [("Style", find_column cols style_aliases),
   ("Year", find_column cols year_aliases),
   ("Month", find_column cols month_aliases),
   ("Sales Qty", find_column cols qty_aliases),
   ("Opening Stock", find_column cols opening_stock_aliases)]

/-- The `missing_sales` list (src/app.py line 124): canonical names of the
required fields whose resolution failed. -/
def missing_sales (cols : List String) : List String :=
  (required_cols_sales cols).filterMap (fun p => if p.2.isNone then some p.1 else none)

/-- The optional additional columns of `additional_cols_mapping`
(src/app.py lines 141-150). -/
inductive OptCol where
  | Subcategory | Season | Brand | Color | Heel_Type_1 | Maketplace | Closing_stock | Date
deriving DecidableEq

/-- Alias lists of `additional_cols_mapping` (src/app.py lines 141-150). -/
def opt_aliases : OptCol → List String
  | OptCol.Subcategory => ["Subcategory", "SUBCATEGORY", "Sub_Category"]
  | OptCol.Season => ["Season", "SEASON"]
  | OptCol.Brand => ["Brand", "BRAND"]
  | OptCol.Color => ["Color", "COLOR"]
  | OptCol.Heel_Type_1 => ["Heel_Type 1", "Heel Type 1", "HEEL_TYPE_1", "Heel_Type_1"]
  | OptCol.Maketplace => ["Maketplace", "MAKETPLACE", "Marketplace", "MARKETPLACE"]
  | OptCol.Closing_stock => ["Closing_stock", "Closing Stock", "CLOSING_STOCK"]
  | OptCol.Date => ["Date", "DATE"]

/-- Source dictionary order of `additional_cols_mapping`. -/
def allOptCols : List OptCol :=
  [OptCol.Subcategory, OptCol.Season, OptCol.Brand, OptCol.Color,
   OptCol.Heel_Type_1, OptCol.Maketplace, OptCol.Closing_stock, OptCol.Date]

/-- One row of the canonical table `sales_clean` (src/app.py lines 132-155).
Optional columns that were not resolved are modelled as the all-`null`
column. -/
structure SalesRecord where
  STYLE_ID : String
  YEAR : Option ℚ
  MONTH : Option ℚ
  SALES_QTY : ℚ
  OPENING_STOCK : ℚ
  Subcategory : Cell
  Season : Cell
  Brand : Cell
  Color : Cell
  Heel_Type_1 : Cell
  Maketplace : Cell
  Closing_stock : Cell
  Date : Cell
deriving DecidableEq

/-- Accessor for an optional column's cell in a canonical record. -/
def getOptCell : OptCol → SalesRecord → Cell
  | OptCol.Subcategory, r => r.Subcategory
  | OptCol.Season, r => r.Season
  | OptCol.Brand, r => r.Brand
  | OptCol.Color, r => r.Color
  | OptCol.Heel_Type_1, r => r.Heel_Type_1
  | OptCol.Maketplace, r => r.Maketplace
  | OptCol.Closing_stock, r => r.Closing_stock
  | OptCol.Date, r => r.Date

/-- The canonical table: which optional columns were resolved, plus the
canonical rows. -/
structure CleanTable where
  presentCols : List OptCol
  rows : List SalesRecord
deriving DecidableEq

/-- Model of the source check `'Maketplace' in sales_clean.columns`
(src/app.py line 162). -/
def CleanTable.hasMarketplace (t : CleanTable) : Bool :=
  decide (OptCol.Maketplace ∈ t.presentCols)

/-- A raw sheet as read from the workbook: the header row and the data
rows, cells aligned positionally with the headers. -/
structure RawTable where
  headers : List String
  rows : List (List Cell)

/-- Cell lookup by (cleaned) header name; missing columns or short rows
read as missing values. -/
def getCol (cols : List String) (row : List Cell) (h : String) : Cell :=
  match cols.findIdx? (fun c => c == h) with
  | some i => row.getD i Cell.null
  | none => Cell.null

/-- Cell of an optional column for one raw row: the resolved actual header
if the column resolved, otherwise the all-missing column. -/
def optCellFor (cols : List String) (row : List Cell) (c : OptCol) : Cell :=
  match find_column cols (opt_aliases c) with
  | some h => getCol cols row h
  | none => Cell.null

/-- The per-row normalization of src/app.py lines 132-138 and 152-155:
style cast to text and trimmed; year/month numerically coerced with
`none` on failure; quantities numerically coerced with zero-fill;
optional columns copied raw. -/
def buildRecord (cols : List String) (sc yc mc qc oc : String) (row : List Cell) : SalesRecord :=
  { STYLE_ID := trimStr (cellToStr (getCol cols row sc))
    YEAR := toNumeric (getCol cols row yc)
    MONTH := toNumeric (getCol cols row mc)
    SALES_QTY := (toNumeric (getCol cols row qc)).getD 0
    OPENING_STOCK := (toNumeric (getCol cols row oc)).getD 0
    Subcategory := optCellFor cols row OptCol.Subcategory
    Season := optCellFor cols row OptCol.Season
    Brand := optCellFor cols row OptCol.Brand
    Color := optCellFor cols row OptCol.Color
    Heel_Type_1 := optCellFor cols row OptCol.Heel_Type_1
    Maketplace := optCellFor cols row OptCol.Maketplace
    Closing_stock := optCellFor cols row OptCol.Closing_stock
    Date := optCellFor cols row OptCol.Date }

/-- The structured error surfaced when required columns are missing
(src/app.py lines 126-129): the canonical names of all missing fields and
all available (cleaned) headers. -/
structure SchemaError where
  missing : List String
  available : List String
deriving DecidableEq

/-- The composite duplicate key (src/app.py lines 159-163):
`(STYLE_ID, YEAR, MONTH)`, extended with `Maketplace` when that column is
present.  The last component is `none` when the column is absent and
`some cell` when present (a `some Cell.null` marketplace therefore differs
from an absent column, as in the source).  Plain equality on this key
matches pandas `duplicated`, which treats missing key values as equal. -/
def dupKey (hasM : Bool) (r : SalesRecord) : String × Option ℚ × Option ℚ × Option Cell :=
  (r.STYLE_ID, r.YEAR, r.MONTH, if hasM then some r.Maketplace else none)

/-- Whether a row survives `groupby(duplicate_subset)` with the default
`dropna := True`: every key component must be non-missing. -/
def rowKeyValid (hasM : Bool) (r : SalesRecord) : Bool :=
  r.YEAR.isSome && r.MONTH.isSome && (!hasM || !(r.Maketplace == Cell.null))

/-- Model of `duplicated(subset=duplicate_subset, keep=False).sum()`
(src/app.py line 166): the number of rows whose key occurs at least twice. -/
def dupCount (hasM : Bool) (rows : List SalesRecord) : Nat :=
  rows.countP (fun r => decide (2 ≤ rows.countP (fun s => decide (dupKey hasM s = dupKey hasM r))))

/-- First non-missing value of a column slice, as taken by the pandas
`'first'` aggregator inside `groupby(...).agg` (missing when all values
are missing). -/
def firstNonNull : List Cell → Cell
  | [] => Cell.null
  | Cell.null :: rest => firstNonNull rest
  | c :: _ => c

/-- Aggregation of one duplicate group `r :: rest` under `agg_dict`
(src/app.py lines 171-177): `SALES_QTY` is summed, `OPENING_STOCK` takes
the pandas `'first'` value (the column is never missing after zero-fill, so
this is the first row's value), key columns are constant on the group and
come from the first row, and every other column takes its first
non-missing value.  When the marketplace column is present it is part of
the key; otherwise it is aggregated like the other descriptive columns. -/
def collapseGroup (hasM : Bool) (r : SalesRecord) (rest : List SalesRecord) : SalesRecord :=
  { STYLE_ID := r.STYLE_ID
    YEAR := r.YEAR
    MONTH := r.MONTH
    SALES_QTY := ((r :: rest).map SalesRecord.SALES_QTY).sum
    OPENING_STOCK := r.OPENING_STOCK
    Subcategory := firstNonNull ((r :: rest).map SalesRecord.Subcategory)
    Season := firstNonNull ((r :: rest).map SalesRecord.Season)
    Brand := firstNonNull ((r :: rest).map SalesRecord.Brand)
    Color := firstNonNull ((r :: rest).map SalesRecord.Color)
    Heel_Type_1 := firstNonNull ((r :: rest).map SalesRecord.Heel_Type_1)
    Maketplace := if hasM then r.Maketplace else firstNonNull ((r :: rest).map SalesRecord.Maketplace)
    Closing_stock := firstNonNull ((r :: rest).map SalesRecord.Closing_stock)
    Date := firstNonNull ((r :: rest).map SalesRecord.Date) }

/-- Fuel-indexed worker for the groupby collapse: emit one aggregated row
per distinct key in first-occurrence order, dropping rows whose key has a
missing component (pandas `dropna`). -/
def collapseRowsAux (hasM : Bool) : Nat → List SalesRecord → List SalesRecord
  | 0, _ => []
  | _, [] => []
  | Nat.succ n, r :: rest =>
      if rowKeyValid hasM r then
        collapseGroup hasM r (rest.filter (fun s => decide (dupKey hasM s = dupKey hasM r)))
          :: collapseRowsAux hasM n (rest.filter (fun s => !decide (dupKey hasM s = dupKey hasM r)))
      else
        collapseRowsAux hasM n rest

/-- Model of `sales_clean.groupby(duplicate_subset, as_index=False).agg(agg_dict)`
(src/app.py line 177), with group keys in first-occurrence order. -/
def collapseRows (hasM : Bool) (rows : List SalesRecord) : List SalesRecord :=
  collapseRowsAux hasM rows.length rows

/-- The duplicate-handling step (src/app.py lines 157-177): the groupby
aggregation runs only when at least one duplicated row was detected. -/
def handleDuplicates (t : CleanTable) : CleanTable :=
  if 0 < dupCount t.hasMarketplace t.rows then
    { t with rows := collapseRows t.hasMarketplace t.rows }
  else t

/-- Model of `load_and_process_data` up to (and including) duplicate
handling (src/app.py lines 88-177): clean the headers, resolve the five
required columns, fail fast with the full missing list and the available
headers when any required column is unresolved, otherwise build the
canonical table and collapse duplicates. -/
def load_clean (raw : RawTable) : Except SchemaError CleanTable :=
  let cols := clean_columns raw.headers
  match find_column cols style_aliases, find_column cols year_aliases,
        find_column cols month_aliases, find_column cols qty_aliases,
        find_column cols opening_stock_aliases with
  | some sc, some yc, some mc, some qc, some oc =>
      Except.ok (handleDuplicates
        { presentCols := allOptCols.filter (fun c => (find_column cols (opt_aliases c)).isSome)
          rows := raw.rows.map (buildRecord cols sc yc mc qc oc) })
  | _, _, _, _, _ => Except.error ⟨missing_sales cols, cols⟩

/-- Model of the percentage kernel used at the record level and at every
group-by level (src/app.py lines 187-191, 330-334, 505-509, 581-585):
`(qty / stock) * 100` when the stock is positive, else `0`. -/
def salesPercentage (qty stock : ℚ) : ℚ :=
  if 0 < stock then qty / stock * 100 else 0

/-- Record-level `SALES_PERCENTAGE` assignment (src/app.py lines 187-191),
pairing each canonical row with its percentage. -/
def addSalesPercentage (t : CleanTable) : List (SalesRecord × ℚ) :=
  t.rows.map (fun r => (r, salesPercentage r.SALES_QTY r.OPENING_STOCK))

/-- Fuel-indexed first-occurrence deduplication of a key list (the order in
which group keys are emitted). -/
def firstDedupAux {K : Type} [DecidableEq K] : Nat → List K → List K
  | 0, _ => []
  | _, [] => []
  | Nat.succ n, k :: rest => k :: firstDedupAux n (rest.filter (fun d => !decide (d = k)))

/-- Distinct elements of a list in first-occurrence order. -/
def firstDedup {K : Type} [DecidableEq K] (l : List K) : List K :=
  firstDedupAux l.length l

/-- One output row of a grouped aggregation: the group key, the summed
quantity measures, and the ratio metric. -/
structure AggRow (K : Type) where
  group : K
  SALES_QTY : ℚ
  OPENING_STOCK : ℚ
  SALES_PERCENTAGE : ℚ
deriving DecidableEq

/-- Model of `df.groupby(key).agg({'SALES_QTY': 'sum', 'OPENING_STOCK': 'sum'})`
followed by the percentage-of-sums computation: rows failing `keep` are the
rows dropped by pandas for having a missing group key. -/
def groupAgg {K : Type} [DecidableEq K] (key : SalesRecord → K) (keep : SalesRecord → Bool)
    (rows : List SalesRecord) : List (AggRow K) :=
  let v := rows.filter keep
  (firstDedup (v.map key)).map (fun k =>
    let g := v.filter (fun r => decide (key r = k))
    let s := (g.map SalesRecord.SALES_QTY).sum
    let st := (g.map SalesRecord.OPENING_STOCK).sum
    ⟨k, s, st, salesPercentage s st⟩)

/-- Descending order on the ratio metric, the fixed sort key of
`sort_values('SALES_PERCENTAGE', ascending=False)` (src/app.py line 337). -/
def pctGe {K : Type} (a b : AggRow K) : Prop :=
  b.SALES_PERCENTAGE ≤ a.SALES_PERCENTAGE

instance {K : Type} : DecidableRel (@pctGe K) :=
  fun a b => inferInstanceAs (Decidable (b.SALES_PERCENTAGE ≤ a.SALES_PERCENTAGE))

instance {K : Type} : IsTotal (AggRow K) pctGe :=
  ⟨fun a b => le_total b.SALES_PERCENTAGE a.SALES_PERCENTAGE⟩

instance {K : Type} : IsTrans (AggRow K) pctGe :=
  ⟨fun _ _ _ h1 h2 => le_trans h2 h1⟩

/-- Output of one Aggregation View: the display label the grouping column
was renamed to, plus the aggregated rows. -/
structure AggTable where
  label : String
  rows : List (AggRow Cell)
deriving DecidableEq

/-- Model of `analyze_with_stock` (src/app.py lines 319-340): an empty
result when the grouping column is absent; otherwise group by the column
(pandas drops rows with a missing group value), sum both quantity
measures, compute the percentage of the sums, sort descending by
`SALES_PERCENTAGE`, and rename the grouping column to the display label. -/
def analyze_with_stock (t : CleanTable) (col : OptCol) (name : String) : AggTable :=
  if col ∈ t.presentCols then
    { label := name
      rows := List.insertionSort pctGe
        (groupAgg (getOptCell col) (fun r => !(getOptCell col r == Cell.null)) t.rows) }
  else { label := name, rows := [] }

/-- The month-number to month-name map (src/app.py lines 180-182); numbers
outside 1..12 map to a missing name. -/
def monthName (m : ℚ) : Option String :=
  if m = 1 then some "January" else if m = 2 then some "February"
  else if m = 3 then some "March" else if m = 4 then some "April"
  else if m = 5 then some "May" else if m = 6 then some "June"
  else if m = 7 then some "July" else if m = 8 then some "August"
  else if m = 9 then some "September" else if m = 10 then some "October"
  else if m = 11 then some "November" else if m = 12 then some "December"
  else none

/-- The `MONTH_NAME` column of a row (src/app.py line 183). -/
def monthNameOf (r : SalesRecord) : Option String :=
  r.MONTH.bind monthName

/-- Model of the monthly trend aggregation (src/app.py lines 499-509):
group by `(YEAR, MONTH, MONTH_NAME)` — rows with a missing component of
that key are dropped by pandas — sum the quantity measures and compute the
percentage of the sums.  The subsequent chronological display sort is not
modelled; no claim concerns the order of this view. -/
def monthly_data (rows : List SalesRecord) : List (AggRow (Option ℚ × Option ℚ × Option String)) :=
  groupAgg (fun r => (r.YEAR, r.MONTH, monthNameOf r))
    (fun r => r.YEAR.isSome && r.MONTH.isSome && (monthNameOf r).isSome) rows

/-- Model of the per-product aggregation (src/app.py lines 575-585): group
by `STYLE_ID` (never missing), sum the quantity measures and compute the
percentage of the sums.  The user-selected display sort is not modelled. -/
def product_data (rows : List SalesRecord) : List (AggRow String) :=
  groupAgg SalesRecord.STYLE_ID (fun _ => true) rows

/-- Record constructor for concrete test tables: descriptive columns other
than `Season` and `Maketplace` are absent (all-missing). -/
def mkRec (sid : String) (y m : Option ℚ) (q st : ℚ)
    (season : Cell := Cell.null) (mkt : Cell := Cell.null) : SalesRecord :=
  { STYLE_ID := sid, YEAR := y, MONTH := m, SALES_QTY := q, OPENING_STOCK := st
    Subcategory := Cell.null, Season := season, Brand := Cell.null, Color := Cell.null
    Heel_Type_1 := Cell.null, Maketplace := mkt, Closing_stock := Cell.null, Date := Cell.null }

/-- A raw sheet none of whose headers resolves any required column. -/
def exRawC2 : RawTable :=
  { headers := ["foo"], rows := [] }

/-- A raw sheet with a negative sales-quantity cell. -/
def exRawC10 : RawTable :=
  { headers := ["Style_ID", "YEAR", "MONTH", "Qty", "Opening_stock"]
    rows := [[Cell.str "A", Cell.num 2024, Cell.num 1, Cell.num (-5), Cell.num 100]] }

/-- A well-formed one-row raw sheet. -/
def exRawOk : RawTable :=
  { headers := ["Style_ID", "YEAR", "MONTH", "Qty", "Opening_stock"]
    rows := [[Cell.str " A ", Cell.num 2024, Cell.num 1, Cell.num 5, Cell.num 10]] }

/-- Two rows sharing the composite key with differing opening stocks. -/
def exC3 : CleanTable :=
  { presentCols := []
    rows := [mkRec "A" (some 2024) (some 1) 1 10, mkRec "A" (some 2024) (some 1) 2 20] }

/-- Two rows sharing a key (triggering the groupby) next to a third row
whose YEAR is missing. -/
def exC3b : CleanTable :=
  { presentCols := []
    rows := [mkRec "A" (some 2024) (some 1) 1 10, mkRec "A" (some 2024) (some 1) 2 20,
             mkRec "B" none (some 2) 5 50] }

/-- Two season groups whose percentage order is the reverse of their
quantity order. -/
def exC9 : CleanTable :=
  { presentCols := [OptCol.Season]
    rows := [mkRec "A" (some 2024) (some 1) 100 1000 (Cell.str "A"),
             mkRec "B" (some 2024) (some 1) 10 10 (Cell.str "B")] }

/-- One row with a missing season value next to one with a season value. -/
def exC8 : CleanTable :=
  { presentCols := [OptCol.Season]
    rows := [mkRec "A" (some 2024) (some 1) 5 10 (Cell.str "X"),
             mkRec "B" (some 2024) (some 1) 7 10 Cell.null] }

/-- A table with distinct keys and a zero opening stock on the second row. -/
def exC1 : CleanTable :=
  { presentCols := [OptCol.Season]
    rows := [mkRec "A" (some 2024) (some 1) 3 4 (Cell.str "X"),
             mkRec "B" (some 2024) (some 1) 7 0 (Cell.str "X")] }

/-- The per-group contract of the Duplicate Collapser on the group of `r`:
one emitted row `g` carries the group's key, the SUM of `SALES_QTY`, the
FIRST `OPENING_STOCK` value (the pandas `'first'` aggregator on a
never-missing column), and the first non-missing value of every
descriptive column (the marketplace column is a key column when present
and a descriptive column otherwise). -/
def collapsedGroupSpec (hasM : Bool) (rows : List SalesRecord) (r g : SalesRecord) : Prop :=
  let grp := rows.filter (fun s => decide (dupKey hasM s = dupKey hasM r))
  dupKey hasM g = dupKey hasM r ∧
  g.SALES_QTY = (grp.map SalesRecord.SALES_QTY).sum ∧
  g.OPENING_STOCK = (grp.map SalesRecord.OPENING_STOCK).headD 0 ∧
  g.Subcategory = firstNonNull (grp.map SalesRecord.Subcategory) ∧
  g.Season = firstNonNull (grp.map SalesRecord.Season) ∧
  g.Brand = firstNonNull (grp.map SalesRecord.Brand) ∧
  g.Color = firstNonNull (grp.map SalesRecord.Color) ∧
  g.Heel_Type_1 = firstNonNull (grp.map SalesRecord.Heel_Type_1) ∧
  g.Closing_stock = firstNonNull (grp.map SalesRecord.Closing_stock) ∧
  g.Date = firstNonNull (grp.map SalesRecord.Date) ∧
  (hasM = false → g.Maketplace = firstNonNull (grp.map SalesRecord.Maketplace)) ∧
  (hasM = true → g.Maketplace = (grp.map SalesRecord.Maketplace).headD Cell.null)

/-- Helper lemmas ---------------------------------------------------- -/

theorem upperLookup_sound {cols : List String} {k c : String}
    (h : upperLookup cols k = some c) : c ∈ cols ∧ upperStr c = k := by
  induction cols with
  | nil => simp [upperLookup] at h
  | cons a rest ih =>
      rw [upperLookup] at h
      cases hrest : upperLookup rest k with
      | some d =>
          rw [hrest] at h
          cases h
          obtain ⟨hm, hu⟩ := ih hrest
          exact ⟨List.mem_cons_of_mem _ hm, hu⟩
      | none =>
          rw [hrest] at h
          by_cases hc : upperStr a == k
          · rw [if_pos hc] at h
            cases h
            exact ⟨List.mem_cons_self _ _, by simpa using hc⟩
          · rw [if_neg hc] at h
            cases h

theorem upperLookup_isSome {cols : List String} {k c : String}
    (hm : c ∈ cols) (hu : upperStr c = k) : (upperLookup cols k).isSome = true := by
  induction cols with
  | nil => simp at hm
  | cons a rest ih =>
      rw [upperLookup]
      cases hrest : upperLookup rest k with
      | some d => simp
      | none =>
          rcases List.mem_cons.mp hm with rfl | hmem
          · simp [hu]
          · have := ih hmem
            rw [hrest] at this
            simp at this

theorem find_column_sound {cols aliases : List String} {c : String}
    (h : find_column cols aliases = some c) :
    c ∈ cols ∧ ∃ a ∈ aliases, upperStr a = upperStr c := by
  induction aliases with
  | nil => simp [find_column] at h
  | cons n rest ih =>
      rw [find_column] at h
      cases hl : upperLookup cols (upperStr n) with
      | some d =>
          rw [hl] at h
          cases h
          obtain ⟨hm, hu⟩ := upperLookup_sound hl
          exact ⟨hm, n, List.mem_cons_self _ _, hu.symm⟩
      | none =>
          rw [hl] at h
          obtain ⟨hm, a, ha, hu⟩ := ih h
          exact ⟨hm, a, List.mem_cons_of_mem _ ha, hu⟩

theorem find_column_complete {cols aliases : List String}
    (h : ∃ a ∈ aliases, ∃ c ∈ cols, upperStr c = upperStr a) :
    (find_column cols aliases).isSome = true := by
  induction aliases with
  | nil => simp at h
  | cons n rest ih =>
      rw [find_column]
      cases hl : upperLookup cols (upperStr n) with
      | some d => simp
      | none =>
          obtain ⟨a, ha, c, hc, hu⟩ := h
          rcases List.mem_cons.mp ha with rfl | hmem
          · have := upperLookup_isSome hc hu
            rw [hl] at this
            simp at this
          · exact ih ⟨a, hmem, c, hc, hu⟩

theorem find_column_first {cols : List String} {a : String} (rest : List String)
    (h : ∃ c ∈ cols, upperStr c = upperStr a) :
    ∃ c, find_column cols (a :: rest) = some c ∧ upperStr c = upperStr a := by
  obtain ⟨c, hc, hu⟩ := h
  have hs := upperLookup_isSome hc hu
  cases hl : upperLookup cols (upperStr a) with
  | none => rw [hl] at hs; simp at hs
  | some d =>
      refine ⟨d, ?_, (upperLookup_sound hl).2⟩
      rw [find_column, hl]

/-- C7: the Column Resolver matches a table's headers against an ordered
alias list case-insensitively after whitespace trimming, returns the actual
header corresponding to the first alias in the list that matches, and
returns `none` when no alias matches (a returned header exists among the
headers and matches some alias case-insensitively; a match guarantees a
`some` result; the first matching alias determines the result); in
particular the headers "style_id", "STYLE_ID " and " Style_Id" all resolve
against the alias list ["Style_ID", "STYLE_ID", "StyleID"], each yielding
the corresponding cleaned header for the same canonical field. -/
theorem C7_column_resolver :
    (∀ cols aliases c, find_column cols aliases = some c →
        c ∈ cols ∧ ∃ a ∈ aliases, upperStr a = upperStr c) ∧
    (∀ cols aliases, (∃ a ∈ aliases, ∃ c ∈ cols, upperStr c = upperStr a) →
        (find_column cols aliases).isSome = true) ∧
    (∀ cols a rest, (∃ c ∈ cols, upperStr c = upperStr a) →
        ∃ c, find_column cols (a :: rest) = some c ∧ upperStr c = upperStr a) ∧
    (find_column (clean_columns ["style_id"]) ["Style_ID", "STYLE_ID", "StyleID"] = some "style_id" ∧
     find_column (clean_columns ["STYLE_ID "]) ["Style_ID", "STYLE_ID", "StyleID"] = some "STYLE_ID" ∧
     find_column (clean_columns [" Style_Id"]) ["Style_ID", "STYLE_ID", "StyleID"] = some "Style_Id") :=
  ⟨fun _ _ _ h => find_column_sound h,
   fun _ _ h => find_column_complete h,
   fun _ _ rest h => find_column_first rest h,
   by decide, by decide, by decide⟩

/-- Witness for C7 at a concrete input: the sales-quantity alias list
resolves against a concrete header list. -/
theorem C7_column_resolver_witness :
    (find_column ["Item", "Qty"] qty_aliases).isSome = true :=
  C7_column_resolver.2.1 ["Item", "Qty"] qty_aliases
    ⟨"Qty", by decide, "Qty", by decide, by decide⟩

/-- Membership in the missing-fields list characterizes exactly the
required canonical fields whose resolution failed. -/
theorem mem_missing_sales (cols : List String) (nm : String) :
    nm ∈ missing_sales cols ↔
      ∃ p ∈ required_cols_sales cols, p.1 = nm ∧ p.2 = none := by
  constructor
  · intro h
    obtain ⟨p, hp, hf⟩ := List.mem_filterMap.mp h
    by_cases hn : p.2.isNone
    · rw [if_pos hn] at hf
      cases hf
      exact ⟨p, hp, rfl, Option.isNone_iff_eq_none.mp hn⟩
    · rw [if_neg hn] at hf
      cases hf
  · rintro ⟨p, hp, rfl, hnone⟩
    exact List.mem_filterMap.mpr ⟨p, hp, by rw [hnone]; rfl⟩

/-- C2: if any required Sales-sheet canonical field cannot be resolved,
processing halts with an error carrying the full list of missing canonical
field names together with all cleaned actual headers, and no canonical
table is produced; the run succeeds exactly when no required field is
missing, and the missing list names exactly the required fields whose
resolution failed. -/
theorem C2_schema_error (raw : RawTable) :
    (missing_sales (clean_columns raw.headers) ≠ [] →
      load_clean raw =
        Except.error ⟨missing_sales (clean_columns raw.headers), clean_columns raw.headers⟩) ∧
    (missing_sales (clean_columns raw.headers) = [] ↔ ∃ t, load_clean raw = Except.ok t) ∧
    (∀ nm, nm ∈ missing_sales (clean_columns raw.headers) ↔
      ∃ p ∈ required_cols_sales (clean_columns raw.headers), p.1 = nm ∧ p.2 = none) := by
  refine ⟨?_, ?_, fun nm => mem_missing_sales _ nm⟩ <;>
  · cases h1 : find_column (clean_columns raw.headers) style_aliases <;>
    cases h2 : find_column (clean_columns raw.headers) year_aliases <;>
    cases h3 : find_column (clean_columns raw.headers) month_aliases <;>
    cases h4 : find_column (clean_columns raw.headers) qty_aliases <;>
    cases h5 : find_column (clean_columns raw.headers) opening_stock_aliases <;>
    simp [load_clean, missing_sales, required_cols_sales, h1, h2, h3, h4, h5]

/-- Witness for C2: a sheet with no recognizable header halts with all five
canonical field names and the available header. -/
theorem C2_schema_error_witness :
    load_clean exRawC2 =
      Except.error ⟨["Style", "Year", "Month", "Sales Qty", "Opening Stock"], ["foo"]⟩ := by
  have h := (C2_schema_error exRawC2).1 (by decide)
  exact h.trans (congrArg Except.error (by decide))

theorem dupKey_collapseGroup (hasM : Bool) (r : SalesRecord) (rest : List SalesRecord) :
    dupKey hasM (collapseGroup hasM r rest) = dupKey hasM r := by
  cases hasM <;> simp [dupKey, collapseGroup]

theorem rowKeyValid_of_dupKey_eq {hasM : Bool} {a b : SalesRecord}
    (h : dupKey hasM a = dupKey hasM b) : rowKeyValid hasM a = rowKeyValid hasM b := by
  cases hasM
  · simp [dupKey] at h
    simp [rowKeyValid, h.2.1, h.2.2]
  · simp [dupKey] at h
    simp [rowKeyValid, h.2.1, h.2.2.1, h.2.2.2]

theorem rowKeyValid_collapseGroup {hasM : Bool} {r : SalesRecord} (rest : List SalesRecord)
    (h : rowKeyValid hasM r = true) : rowKeyValid hasM (collapseGroup hasM r rest) = true := by
  cases hasM <;> simp [rowKeyValid, collapseGroup] at h ⊢ <;> tauto

theorem mem_collapseRowsAux {hasM : Bool} :
    ∀ {n : Nat} {l : List SalesRecord} {out : SalesRecord}, out ∈ collapseRowsAux hasM n l →
      ∃ r ∈ l, dupKey hasM out = dupKey hasM r := by
  intro n
  induction n with
  | zero => intro l out h; simp [collapseRowsAux] at h
  | succ n ih =>
      intro l out h
      match l with
      | [] => simp [collapseRowsAux] at h
      | r :: rest =>
          rw [collapseRowsAux] at h
          by_cases hv : rowKeyValid hasM r
          · rw [if_pos hv] at h
            rcases List.mem_cons.mp h with rfl | htail
            · exact ⟨r, List.mem_cons_self _ _, dupKey_collapseGroup _ _ _⟩
            · obtain ⟨s, hs, hk⟩ := ih htail
              exact ⟨s, List.mem_cons_of_mem _ (List.mem_of_mem_filter hs), hk⟩
          · rw [if_neg hv] at h
            obtain ⟨s, hs, hk⟩ := ih h
            exact ⟨s, List.mem_cons_of_mem _ hs, hk⟩

theorem pairwise_keys_collapseRowsAux (hasM : Bool) :
    ∀ (n : Nat) (l : List SalesRecord),
      (collapseRowsAux hasM n l).Pairwise (fun a b => dupKey hasM a ≠ dupKey hasM b) := by
  intro n
  induction n with
  | zero => intro l; simp [collapseRowsAux]
  | succ n ih =>
      intro l
      match l with
      | [] => simp [collapseRowsAux]
      | r :: rest =>
          rw [collapseRowsAux]
          by_cases hv : rowKeyValid hasM r
          · rw [if_pos hv]
            refine List.Pairwise.cons ?_ (ih _)
            intro b hb
            obtain ⟨s, hs, hk⟩ := mem_collapseRowsAux hb
            have hne : ¬ decide (dupKey hasM s = dupKey hasM r) = true := by
              have := List.of_mem_filter hs
              simpa using this
            rw [dupKey_collapseGroup, hk]
            simp at hne
            exact fun hcontra => hne hcontra.symm
          · rw [if_neg hv]
            exact ih _

theorem filter_eq_singleton_of_pairwise {α K : Type} [DecidableEq K] {key : α → K} :
    ∀ {l : List α}, l.Pairwise (fun a b => key a ≠ key b) →
      ∀ {r}, r ∈ l → l.filter (fun s => decide (key s = key r)) = [r] := by
  intro l
  induction l with
  | nil => intro _ r hr; simp at hr
  | cons x xs ih =>
      intro hp r hr
      obtain ⟨hx, hxs⟩ := List.pairwise_cons.mp hp
      rcases List.mem_cons.mp hr with rfl | hmem
      · rw [List.filter_cons]
        have hnil : xs.filter (fun s => decide (key s = key r)) = [] := by
          rw [List.filter_eq_nil_iff]
          intro s hs
          simpa using fun hc => hx s hs hc.symm
        simp [hnil]
      · rw [List.filter_cons]
        have hxr : ¬ (key x = key r) := hx r hmem
        simp only [hxr, decide_False, Bool.false_eq_true, if_false]
        exact ih hxs hmem

theorem countP_key_eq_one_of_pairwise {α K : Type} [DecidableEq K] {key : α → K}
    {l : List α} (hp : l.Pairwise (fun a b => key a ≠ key b)) {r} (hr : r ∈ l) :
    l.countP (fun s => decide (key s = key r)) = 1 := by
  rw [List.countP_eq_length_filter, filter_eq_singleton_of_pairwise hp hr]
  rfl

theorem dupCount_eq_zero_of_pairwise {hasM : Bool} {rows : List SalesRecord}
    (hp : rows.Pairwise (fun a b => dupKey hasM a ≠ dupKey hasM b)) :
    dupCount hasM rows = 0 := by
  rw [dupCount, List.countP_eq_zero]
  intro r hr
  have h1 := countP_key_eq_one_of_pairwise hp hr
  simp [h1]

theorem pairwise_of_dupCount_eq_zero {hasM : Bool} :
    ∀ {rows : List SalesRecord}, dupCount hasM rows = 0 →
      rows.Pairwise (fun a b => dupKey hasM a ≠ dupKey hasM b) := by
  intro rows
  induction rows with
  | nil => intro _; exact List.Pairwise.nil
  | cons x xs ih =>
      intro h
      rw [dupCount, List.countP_eq_zero] at h
      refine List.Pairwise.cons ?_ (ih ?_)
      · intro b hb hkey
        have hx := h x (List.mem_cons_self _ _)
        simp only [decide_eq_true_eq, not_le] at hx
        have hcount : 0 < xs.countP (fun s => decide (dupKey hasM s = dupKey hasM x)) := by
          rw [List.countP_pos_iff]
          exact ⟨b, hb, by simpa using hkey.symm⟩
        rw [List.countP_cons] at hx
        simp at hx
        omega
      · rw [dupCount, List.countP_eq_zero]
        intro r hr
        have hxr := h r (List.mem_cons_of_mem _ hr)
        simp only [decide_eq_true_eq, not_le] at hxr ⊢
        rw [List.countP_cons] at hxr
        by_cases hc : decide (dupKey hasM x = dupKey hasM r) = true
        · rw [if_pos hc] at hxr
          omega
        · rw [if_neg hc] at hxr
          omega

/-- C4: the Duplicate Collapser is idempotent — applying the collapsing
step to a table that has already been collapsed (one row per composite
key) yields a table identical to its input: collapsing the output of the
collapser is the identity, and the step leaves any table whose composite
keys are already unique untouched. -/
theorem C4_collapser_idempotent :
    (∀ t : CleanTable, handleDuplicates (handleDuplicates t) = handleDuplicates t) ∧
    (∀ t : CleanTable,
      t.rows.Pairwise (fun a b => dupKey t.hasMarketplace a ≠ dupKey t.hasMarketplace b) →
        handleDuplicates t = t) := by
  have key : ∀ u : CleanTable, dupCount u.hasMarketplace u.rows = 0 → handleDuplicates u = u := by
    intro u hu
    rw [handleDuplicates, if_neg (by omega)]
  refine ⟨fun t => ?_, fun t hp => key t (dupCount_eq_zero_of_pairwise hp)⟩
  by_cases h : 0 < dupCount t.hasMarketplace t.rows
  · have hu : handleDuplicates t = { t with rows := collapseRows t.hasMarketplace t.rows } := by
      rw [handleDuplicates, if_pos h]
    apply key
    rw [hu]
    exact dupCount_eq_zero_of_pairwise (pairwise_keys_collapseRowsAux _ _ _)
  · have hz := key t (Nat.eq_zero_of_not_pos h)
    rw [hz, hz]

/-- Witness for C4: a one-row table is already collapsed and is returned
unchanged. -/
theorem C4_collapser_idempotent_witness :
    handleDuplicates { presentCols := [], rows := [mkRec "A" (some 2024) (some 1) 1 10] } =
      { presentCols := [], rows := [mkRec "A" (some 2024) (some 1) 1 10] } :=
  C4_collapser_idempotent.2 _ (by simp)

/-- C5: after the duplicate-collapsing step, the composite key
`(STYLE_ID, YEAR, MONTH)` — extended with `Maketplace` when that column is
present — is unique within the canonical table, whether or not any
duplicates were detected in the input. -/
theorem C5_key_unique_after_collapse (t : CleanTable) :
    (handleDuplicates t).rows.Pairwise
      (fun a b => dupKey t.hasMarketplace a ≠ dupKey t.hasMarketplace b) := by
  rw [handleDuplicates]
  by_cases h : 0 < dupCount t.hasMarketplace t.rows
  · rw [if_pos h]
    exact pairwise_keys_collapseRowsAux _ _ _
  · rw [if_neg h]
    exact pairwise_of_dupCount_eq_zero (Nat.eq_zero_of_not_pos h)

theorem valid_of_mem_collapseRowsAux {hasM : Bool} :
    ∀ {n : Nat} {l : List SalesRecord} {out : SalesRecord},
      out ∈ collapseRowsAux hasM n l → rowKeyValid hasM out = true := by
  intro n
  induction n with
  | zero => intro l out h; simp [collapseRowsAux] at h
  | succ n ih =>
      intro l out h
      match l with
      | [] => simp [collapseRowsAux] at h
      | r :: rest =>
          rw [collapseRowsAux] at h
          by_cases hv : rowKeyValid hasM r
          · rw [if_pos hv] at h
            rcases List.mem_cons.mp h with rfl | htail
            · exact rowKeyValid_collapseGroup _ hv
            · exact ih htail
          · rw [if_neg hv] at h
            exact ih h

theorem collapseRowsAux_group (hasM : Bool) :
    ∀ (n : Nat) (l : List SalesRecord), l.length ≤ n →
      ∀ {r : SalesRecord}, r ∈ l → rowKeyValid hasM r = true →
        ∃ x rest,
          l.filter (fun s => decide (dupKey hasM s = dupKey hasM r)) = x :: rest ∧
          collapseGroup hasM x rest ∈ collapseRowsAux hasM n l := by
  intro n
  induction n with
  | zero =>
      intro l hl r hr _
      rw [Nat.le_zero, List.length_eq_zero] at hl
      subst hl
      simp at hr
  | succ n ih =>
      intro l hl r hr hv
      match l with
      | [] => simp at hr
      | a :: t =>
          have hlt : t.length ≤ n := by simpa using hl
          rw [collapseRowsAux]
          by_cases hva : rowKeyValid hasM a
          · rw [if_pos hva]
            by_cases hk : dupKey hasM a = dupKey hasM r
            · refine ⟨a, t.filter (fun s => decide (dupKey hasM s = dupKey hasM a)), ?_, List.mem_cons_self _ _⟩
              rw [List.filter_cons]
              simp [hk]
            · have hrt : r ∈ t := by
                rcases List.mem_cons.mp hr with rfl | h
                · exact absurd rfl hk
                · exact h
              have hrt' : r ∈ t.filter (fun s => !decide (dupKey hasM s = dupKey hasM a)) := by
                refine List.mem_filter.mpr ⟨hrt, ?_⟩
                simp
                exact fun hc => hk hc.symm
              have hlen : (t.filter (fun s => !decide (dupKey hasM s = dupKey hasM a))).length ≤ n :=
                le_trans (List.length_filter_le _ _) hlt
              obtain ⟨x, rest, hfe, hmem⟩ := ih _ hlen hrt' hv
              refine ⟨x, rest, ?_, List.mem_cons_of_mem _ hmem⟩
              rw [List.filter_cons]
              simp only [hk, decide_False, Bool.false_eq_true, if_false]
              rw [← hfe, List.filter_filter]
              apply List.filter_congr
              intro s _
              have hra : ¬ (dupKey hasM r = dupKey hasM a) := fun hc => hk hc.symm
              by_cases hsr : dupKey hasM s = dupKey hasM r
              · simp [hsr, hra]
              · simp [hsr]
          · rw [if_neg hva]
            have hka : ¬ (dupKey hasM a = dupKey hasM r) := by
              intro hc
              exact hva ((rowKeyValid_of_dupKey_eq hc).trans hv)
            have hrt : r ∈ t := by
              rcases List.mem_cons.mp hr with rfl | h
              · exact absurd rfl hka
              · exact h
            obtain ⟨x, rest, hfe, hmem⟩ := ih _ hlt hrt hv
            refine ⟨x, rest, ?_, hmem⟩
            rw [List.filter_cons]
            simp only [hka, decide_False, Bool.false_eq_true, if_false]
            exact hfe

/-- C3 (amended): for every input row whose composite key has no missing
component, the collapse emits exactly one output row for that key; that
row carries the SUM of `SALES_QTY` over the group but the FIRST value of
`OPENING_STOCK` (not its sum), and the first non-missing value of every
other column in original row order.  A row whose key contains a missing
component is dropped entirely by the groupby: the output has ZERO rows for
its key. -/
theorem C3_duplicate_collapser (hasM : Bool) (rows : List SalesRecord) {r : SalesRecord}
    (hr : r ∈ rows) :
    (rowKeyValid hasM r = true →
      ∃ g ∈ collapseRows hasM rows,
        collapsedGroupSpec hasM rows r g ∧
        (collapseRows hasM rows).countP
          (fun o => decide (dupKey hasM o = dupKey hasM r)) = 1) ∧
    (rowKeyValid hasM r = false →
      (collapseRows hasM rows).countP
        (fun o => decide (dupKey hasM o = dupKey hasM r)) = 0) := by
  constructor
  · intro hv
    obtain ⟨x, rest, hfe, hmem⟩ :=
      collapseRowsAux_group hasM rows.length rows le_rfl hr hv
    have hxk : dupKey hasM x = dupKey hasM r := by
      have hx : x ∈ rows.filter (fun s => decide (dupKey hasM s = dupKey hasM r)) := by
        rw [hfe]; exact List.mem_cons_self _ _
      simpa using List.of_mem_filter hx
    have hgk : dupKey hasM (collapseGroup hasM x rest) = dupKey hasM r :=
      (dupKey_collapseGroup hasM x rest).trans hxk
    refine ⟨collapseGroup hasM x rest, hmem, ?_, ?_⟩
    · refine ⟨hgk, ?_, ?_, ?_, ?_, ?_, ?_, ?_, ?_, ?_, ?_, ?_⟩ <;>
        rw [hfe] <;> first
          | (intro hM; cases hM; simp [collapseGroup])
          | simp [collapseGroup]
    · have hp := pairwise_keys_collapseRowsAux hasM rows.length rows
      have h1 := countP_key_eq_one_of_pairwise hp hmem
      have : (fun o => decide (dupKey hasM o = dupKey hasM r))
          = (fun o => decide (dupKey hasM o = dupKey hasM (collapseGroup hasM x rest))) := by
        funext o
        rw [hgk]
      rw [collapseRows, this]
      exact h1
  · intro hv
    rw [collapseRows, List.countP_eq_zero]
    intro g hg
    simp only [decide_eq_true_eq]
    intro hkey
    have hvg := valid_of_mem_collapseRowsAux hg
    have heq := rowKeyValid_of_dupKey_eq hkey
    rw [hvg, hv] at heq
    exact Bool.noConfusion heq

/-- Witness for C3: the duplicated key of a concrete table yields exactly
one contractual output row, and a concrete row with a missing YEAR yields
zero output rows for its key. -/
theorem C3_duplicate_collapser_witness :
    (∃ g ∈ collapseRows false exC3.rows,
      collapsedGroupSpec false exC3.rows (mkRec "A" (some 2024) (some 1) 1 10) g ∧
      (collapseRows false exC3.rows).countP
        (fun o => decide (dupKey false o = dupKey false (mkRec "A" (some 2024) (some 1) 1 10))) = 1) ∧
    (collapseRows false exC3b.rows).countP
      (fun o => decide (dupKey false o = dupKey false (mkRec "B" none (some 2) 5 50))) = 0 :=
  ⟨(C3_duplicate_collapser false exC3.rows (by decide)).1 (by decide),
   (C3_duplicate_collapser false exC3b.rows (by decide)).2 (by decide)⟩

/-- Counterexample for C3 as stated: on a group with opening stocks 10 and
20, the collapsed row keeps 10 (the first value) rather than the sum 30;
and when the groupby is triggered, the row with a missing YEAR vanishes
from the output instead of contributing one row for its key. -/
theorem C3_duplicate_collapser_counterexample :
    ((handleDuplicates exC3).rows.map SalesRecord.OPENING_STOCK = [10] ∧
     (exC3.rows.map SalesRecord.OPENING_STOCK).sum = 30 ∧ (10 : ℚ) ≠ 30) ∧
    (exC3b.rows.map SalesRecord.STYLE_ID = ["A", "A", "B"] ∧
     (handleDuplicates exC3b).rows.map SalesRecord.STYLE_ID = ["A"]) := by
  refine ⟨⟨?_, by norm_num [exC3, mkRec], by norm_num⟩, by decide, ?_⟩
  · norm_num +decide [handleDuplicates, dupCount, dupKey, CleanTable.hasMarketplace, exC3, mkRec,
      collapseRows, collapseRowsAux, rowKeyValid, collapseGroup, firstNonNull]
  · norm_num +decide [handleDuplicates, dupCount, dupKey, CleanTable.hasMarketplace, exC3b, mkRec,
      collapseRows, collapseRowsAux, rowKeyValid, collapseGroup, firstNonNull]

/-- C6: the Table Normalizer's fill policy — an unparseable year or month
becomes null in the canonical record (a parseable one keeps its value),
an unparseable or absent sales-quantity or opening-stock value becomes 0
(a parseable one keeps its value), and the style identifier is cast to
text and trimmed of surrounding whitespace. -/
theorem C6_normalizer_fill_policy (cols : List String) (sc yc mc qc oc : String)
    (row : List Cell) :
    (toNumeric (getCol cols row yc) = none → (buildRecord cols sc yc mc qc oc row).YEAR = none) ∧
    (∀ q, toNumeric (getCol cols row yc) = some q →
      (buildRecord cols sc yc mc qc oc row).YEAR = some q) ∧
    (toNumeric (getCol cols row mc) = none → (buildRecord cols sc yc mc qc oc row).MONTH = none) ∧
    (∀ q, toNumeric (getCol cols row mc) = some q →
      (buildRecord cols sc yc mc qc oc row).MONTH = some q) ∧
    (toNumeric (getCol cols row qc) = none → (buildRecord cols sc yc mc qc oc row).SALES_QTY = 0) ∧
    (∀ q, toNumeric (getCol cols row qc) = some q →
      (buildRecord cols sc yc mc qc oc row).SALES_QTY = q) ∧
    (toNumeric (getCol cols row oc) = none →
      (buildRecord cols sc yc mc qc oc row).OPENING_STOCK = 0) ∧
    (∀ q, toNumeric (getCol cols row oc) = some q →
      (buildRecord cols sc yc mc qc oc row).OPENING_STOCK = q) ∧
    (buildRecord cols sc yc mc qc oc row).STYLE_ID = trimStr (cellToStr (getCol cols row sc)) := by
  refine ⟨?_, ?_, ?_, ?_, ?_, ?_, ?_, ?_, rfl⟩ <;>
    first
      | (intro h; simp [buildRecord, h])
      | (intro q h; simp [buildRecord, h])

/-- Witness for C6: a concrete row with an unparseable month and a missing
quantity zero-fills the quantity and nulls the month. -/
theorem C6_normalizer_fill_policy_witness :
    (buildRecord ["S", "Y", "M", "Q", "O"] "S" "Y" "M" "Q" "O"
        [Cell.str " A ", Cell.num 2024, Cell.str "junk", Cell.null, Cell.num 7]).MONTH = none ∧
    (buildRecord ["S", "Y", "M", "Q", "O"] "S" "Y" "M" "Q" "O"
        [Cell.str " A ", Cell.num 2024, Cell.str "junk", Cell.null, Cell.num 7]).SALES_QTY = 0 ∧
    (buildRecord ["S", "Y", "M", "Q", "O"] "S" "Y" "M" "Q" "O"
        [Cell.str " A ", Cell.num 2024, Cell.str "junk", Cell.null, Cell.num 7]).STYLE_ID = "A" :=
  ⟨(C6_normalizer_fill_policy ["S", "Y", "M", "Q", "O"] "S" "Y" "M" "Q" "O"
      [Cell.str " A ", Cell.num 2024, Cell.str "junk", Cell.null, Cell.num 7]).2.2.1 (by decide),
   (C6_normalizer_fill_policy ["S", "Y", "M", "Q", "O"] "S" "Y" "M" "Q" "O"
      [Cell.str " A ", Cell.num 2024, Cell.str "junk", Cell.null, Cell.num 7]).2.2.2.2.1 (by decide),
   ((C6_normalizer_fill_policy ["S", "Y", "M", "Q", "O"] "S" "Y" "M" "Q" "O"
      [Cell.str " A ", Cell.num 2024, Cell.str "junk", Cell.null, Cell.num 7]).2.2.2.2.2.2.2.2).trans
      (by decide)⟩

/-- C10 (amended): the normalizer's quantity measures are non-negative
whenever every parseable source quantity is non-negative (the zero-fill
default is non-negative); negative source values, however, pass through
unchanged. -/
theorem C10_quantity_nonneg (cols : List String) (sc yc mc qc oc : String) (row : List Cell)
    (hq : ∀ q, toNumeric (getCol cols row qc) = some q → 0 ≤ q)
    (ho : ∀ q, toNumeric (getCol cols row oc) = some q → 0 ≤ q) :
    0 ≤ (buildRecord cols sc yc mc qc oc row).SALES_QTY ∧
    0 ≤ (buildRecord cols sc yc mc qc oc row).OPENING_STOCK := by
  constructor
  · cases h : toNumeric (getCol cols row qc) with
    | none => simp [buildRecord, h]
    | some q => simpa [buildRecord, h] using hq q h
  · cases h : toNumeric (getCol cols row oc) with
    | none => simp [buildRecord, h]
    | some q => simpa [buildRecord, h] using ho q h

/-- Witness for C10 at a concrete non-negative row. -/
theorem C10_quantity_nonneg_witness :
    0 ≤ (buildRecord ["S", "Y", "M", "Q", "O"] "S" "Y" "M" "Q" "O"
        [Cell.str "A", Cell.num 2024, Cell.num 1, Cell.num 5, Cell.num 7]).SALES_QTY ∧
    0 ≤ (buildRecord ["S", "Y", "M", "Q", "O"] "S" "Y" "M" "Q" "O"
        [Cell.str "A", Cell.num 2024, Cell.num 1, Cell.num 5, Cell.num 7]).OPENING_STOCK :=
  C10_quantity_nonneg ["S", "Y", "M", "Q", "O"] "S" "Y" "M" "Q" "O"
    [Cell.str "A", Cell.num 2024, Cell.num 1, Cell.num 5, Cell.num 7]
    (fun q hq => by
      rw [show toNumeric (getCol ["S", "Y", "M", "Q", "O"]
          [Cell.str "A", Cell.num 2024, Cell.num 1, Cell.num 5, Cell.num 7] "Q") = some 5 from by decide] at hq
      cases hq
      norm_num)
    (fun q hq => by
      rw [show toNumeric (getCol ["S", "Y", "M", "Q", "O"]
          [Cell.str "A", Cell.num 2024, Cell.num 1, Cell.num 5, Cell.num 7] "O") = some 7 from by decide] at hq
      cases hq
      norm_num)

/-- Counterexample for C10 as stated: a negative source quantity survives
into the canonical record, so quantity measures are not always
non-negative. -/
theorem C10_quantity_nonneg_counterexample :
    ((load_clean exRawC10).toOption.map (fun t => t.rows.map SalesRecord.SALES_QTY)) =
      some [(-5 : ℚ)] ∧ ¬ (0 : ℚ) ≤ -5 := by
  constructor
  · decide
  · norm_num

theorem mem_firstDedupAux {K : Type} [DecidableEq K] :
    ∀ {n : Nat} {l : List K} {x : K}, x ∈ firstDedupAux n l → x ∈ l := by
  intro n
  induction n with
  | zero => intro l x h; simp [firstDedupAux] at h
  | succ n ih =>
      intro l x h
      match l with
      | [] => simp [firstDedupAux] at h
      | k :: rest =>
          rw [firstDedupAux] at h
          rcases List.mem_cons.mp h with rfl | h2
          · exact List.mem_cons_self _ _
          · exact List.mem_cons_of_mem _ (List.mem_of_mem_filter (ih h2))

theorem groupAgg_mem {K : Type} [DecidableEq K] {key : SalesRecord → K} {keep : SalesRecord → Bool}
    (hk : ∀ s r, key s = key r → keep r = true → keep s = true)
    {rows : List SalesRecord} {a : AggRow K} (ha : a ∈ groupAgg key keep rows) :
    a.SALES_PERCENTAGE = salesPercentage a.SALES_QTY a.OPENING_STOCK ∧
    a.SALES_QTY =
      ((rows.filter (fun r => decide (key r = a.group))).map SalesRecord.SALES_QTY).sum ∧
    a.OPENING_STOCK =
      ((rows.filter (fun r => decide (key r = a.group))).map SalesRecord.OPENING_STOCK).sum := by
  simp only [groupAgg] at ha
  obtain ⟨k, hkmem, rfl⟩ := List.mem_map.mp ha
  have hkv : k ∈ (rows.filter keep).map key := by
    have := mem_firstDedupAux (n := (List.map key (List.filter keep rows)).length) hkmem
    exact this
  obtain ⟨r0, hr0, hr0k⟩ := List.mem_map.mp hkv
  have hr0keep : keep r0 = true := (List.mem_filter.mp hr0).2
  have hfe : (rows.filter keep).filter (fun r => decide (key r = k))
      = rows.filter (fun r => decide (key r = k)) := by
    rw [List.filter_filter]
    apply List.filter_congr
    intro r _
    by_cases hrk : key r = k
    · have : keep r = true := hk r r0 (by rw [hrk, ← hr0k]) hr0keep
      simp [hrk, this]
    · simp [hrk]
  refine ⟨rfl, ?_, ?_⟩ <;> simp only [hfe]

theorem sum_map_filter_not_add {α : Type} (p : α → Bool) (f : α → ℚ) (l : List α) :
    ((l.filter p).map f).sum + ((l.filter (fun a => !p a)).map f).sum = (l.map f).sum := by
  induction l with
  | nil => simp
  | cons a t ih =>
      cases hp : p a <;>
        simp only [List.filter_cons, hp, Bool.not_true, Bool.not_false, if_true, if_false,
          Bool.false_eq_true, Bool.true_eq_false, List.map_cons, List.sum_cons] <;>
        linarith [ih]

theorem sum_over_groupsAux {K : Type} [DecidableEq K] (key : SalesRecord → K)
    (f : SalesRecord → ℚ) :
    ∀ (n : Nat) (v : List SalesRecord), v.length ≤ n →
      ((firstDedupAux n (v.map key)).map
        (fun k => ((v.filter (fun r => decide (key r = k))).map f).sum)).sum
        = (v.map f).sum := by
  intro n
  induction n with
  | zero =>
      intro v hv
      rw [Nat.le_zero, List.length_eq_zero] at hv
      subst hv
      simp [firstDedupAux]
  | succ n ih =>
      intro v hv
      match v with
      | [] => simp [firstDedupAux]
      | a :: t =>
          have hlt : t.length ≤ n := by simpa using hv
          rw [List.map_cons, firstDedupAux, List.map_cons, List.sum_cons]
          have hmapfilter : (t.map key).filter (fun d => !decide (d = key a))
              = (t.filter (fun s => !decide (key s = key a))).map key := by
            rw [List.filter_map]
            rfl
          rw [hmapfilter]
          have hhead : (a :: t).filter (fun r => decide (key r = key a))
              = a :: t.filter (fun r => decide (key r = key a)) := by
            rw [List.filter_cons]
            simp
          have htail : ((firstDedupAux n ((t.filter (fun s => !decide (key s = key a))).map key)).map
              (fun k => (((a :: t).filter (fun r => decide (key r = k))).map f).sum)).sum
              = ((firstDedupAux n ((t.filter (fun s => !decide (key s = key a))).map key)).map
              (fun k => (((t.filter (fun s => !decide (key s = key a))).filter
                  (fun r => decide (key r = k))).map f).sum)).sum := by
            apply congrArg
            apply List.map_congr_left
            intro k hkmem
            obtain ⟨s0, hs0, hs0k⟩ := List.mem_map.mp (mem_firstDedupAux hkmem)
            have hs0a : ¬ (key s0 = key a) := by
              have := (List.mem_filter.mp hs0).2
              simpa using this
            have hka : ¬ (key a = k) := by
              rw [← hs0k]
              exact fun hc => hs0a hc.symm
            congr 1
            rw [List.filter_cons]
            simp only [hka, decide_False, Bool.false_eq_true, if_false]
            rw [List.filter_filter]
            apply congrArg
            apply List.filter_congr
            intro r _
            by_cases hrk : key r = k
            · simp only [hrk, decide_True, Bool.true_and]
              rw [← hs0k]
              simp [hs0a]
            · simp [hrk]
          rw [htail, ih _ (le_trans (List.length_filter_le _ _) hlt), hhead]
          rw [List.map_cons, List.sum_cons]
          have hsplit := sum_map_filter_not_add (fun s => decide (key s = key a)) f t
          rw [List.map_cons, List.sum_cons]
          linarith [hsplit]

theorem groupAgg_sum_sales {K : Type} [DecidableEq K] (key : SalesRecord → K)
    (keep : SalesRecord → Bool) (rows : List SalesRecord) :
    ((groupAgg key keep rows).map AggRow.SALES_QTY).sum
      = ((rows.filter keep).map SalesRecord.SALES_QTY).sum := by
  simp only [groupAgg, firstDedup, List.map_map]
  have : (AggRow.SALES_QTY ∘ fun k =>
      ({ group := k,
         SALES_QTY := (((rows.filter keep).filter (fun r => decide (key r = k))).map
           SalesRecord.SALES_QTY).sum,
         OPENING_STOCK := (((rows.filter keep).filter (fun r => decide (key r = k))).map
           SalesRecord.OPENING_STOCK).sum,
         SALES_PERCENTAGE := salesPercentage
           ((((rows.filter keep).filter (fun r => decide (key r = k))).map
             SalesRecord.SALES_QTY).sum)
           ((((rows.filter keep).filter (fun r => decide (key r = k))).map
             SalesRecord.OPENING_STOCK).sum) } : AggRow K))
      = fun k => (((rows.filter keep).filter (fun r => decide (key r = k))).map
           SalesRecord.SALES_QTY).sum := rfl
  rw [this]
  rw [show (List.map key (rows.filter keep)).length = (rows.filter keep).length from
    List.length_map _ _]
  exact sum_over_groupsAux key SalesRecord.SALES_QTY _ _ le_rfl

/-- C1: every processed record's `SALES_PERCENTAGE` equals
`SALES_QTY / OPENING_STOCK * 100` when the opening stock is positive and 0
otherwise (in particular whenever it is zero, regardless of `SALES_QTY`);
the computation is a total function (no division fault can propagate), and
each group-by aggregate (category view, monthly view, product view)
computes its percentage by the same formula applied to the group's summed
quantities — never by averaging per-record percentages. -/
theorem C1_sales_percentage (t : CleanTable) (col : OptCol) (nm : String) :
    (∀ p ∈ addSalesPercentage t,
      (0 < p.1.OPENING_STOCK → p.2 = p.1.SALES_QTY / p.1.OPENING_STOCK * 100) ∧
      (¬ 0 < p.1.OPENING_STOCK → p.2 = 0)) ∧
    (∀ a ∈ (analyze_with_stock t col nm).rows,
      a.SALES_PERCENTAGE = salesPercentage a.SALES_QTY a.OPENING_STOCK ∧
      a.SALES_QTY = ((t.rows.filter (fun r => decide (getOptCell col r = a.group))).map
        SalesRecord.SALES_QTY).sum ∧
      a.OPENING_STOCK = ((t.rows.filter (fun r => decide (getOptCell col r = a.group))).map
        SalesRecord.OPENING_STOCK).sum) ∧
    (∀ a ∈ monthly_data t.rows,
      a.SALES_PERCENTAGE = salesPercentage a.SALES_QTY a.OPENING_STOCK ∧
      a.SALES_QTY = ((t.rows.filter
          (fun r => decide ((r.YEAR, r.MONTH, monthNameOf r) = a.group))).map
        SalesRecord.SALES_QTY).sum ∧
      a.OPENING_STOCK = ((t.rows.filter
          (fun r => decide ((r.YEAR, r.MONTH, monthNameOf r) = a.group))).map
        SalesRecord.OPENING_STOCK).sum) ∧
    (∀ a ∈ product_data t.rows,
      a.SALES_PERCENTAGE = salesPercentage a.SALES_QTY a.OPENING_STOCK ∧
      a.SALES_QTY = ((t.rows.filter (fun r => decide (r.STYLE_ID = a.group))).map
        SalesRecord.SALES_QTY).sum ∧
      a.OPENING_STOCK = ((t.rows.filter (fun r => decide (r.STYLE_ID = a.group))).map
        SalesRecord.OPENING_STOCK).sum) ∧
    (∀ q st : ℚ, (0 < st → salesPercentage q st = q / st * 100) ∧
      (¬ 0 < st → salesPercentage q st = 0)) := by
  refine ⟨?_, ?_, ?_, ?_, ?_⟩
  · intro p hp
    obtain ⟨r, _, rfl⟩ := List.mem_map.mp hp
    constructor
    · intro hpos
      simp [salesPercentage, if_pos hpos]
    · intro hneg
      simp [salesPercentage, if_neg hneg]
  · intro a ha
    by_cases hcol : col ∈ t.presentCols
    · simp only [analyze_with_stock, if_pos hcol] at ha
      have ha2 : a ∈ groupAgg (getOptCell col)
          (fun r => !(getOptCell col r == Cell.null)) t.rows :=
        (List.perm_insertionSort pctGe _).mem_iff.mp ha
      exact groupAgg_mem (fun s r hks hkr => by
        simp only [← hks] at hkr ⊢
        exact hkr) ha2
    · simp [analyze_with_stock, hcol] at ha
  · intro a ha
    refine groupAgg_mem (fun s r hks hkr => ?_) ha
    simp only [Prod.mk.injEq] at hks
    obtain ⟨h1, h2, h3⟩ := hks
    simp only [h1, h2, h3]
    exact hkr
  · intro a ha
    exact groupAgg_mem (fun s r _ _ => rfl) ha
  · intro q st
    constructor
    · intro hpos
      simp [salesPercentage, if_pos hpos]
    · intro hneg
      simp [salesPercentage, if_neg hneg]

/-- Witness for C1 at a concrete record with positive opening stock. -/
theorem C1_sales_percentage_witness :
    ((mkRec "A" (some 2024) (some 1) 3 4 (Cell.str "X"), salesPercentage 3 4)
      ∈ addSalesPercentage exC1) ∧
    salesPercentage 3 4 = 3 / 4 * 100 := by
  have hmem : (mkRec "A" (some 2024) (some 1) 3 4 (Cell.str "X"), salesPercentage 3 4)
      ∈ addSalesPercentage exC1 := by
    norm_num [addSalesPercentage, exC1, mkRec]
  refine ⟨hmem, ?_⟩
  have h := ((C1_sales_percentage exC1 OptCol.Season "Season").1 _ hmem).1
    (by norm_num [mkRec])
  simpa [mkRec] using h

/-- C8 (amended): for a grouping dimension present in the schema, the sum
of `SALES_QTY` over the aggregate rows equals the sum over the input rows
whose dimension value is non-missing; when every row carries a non-missing
dimension value this is exactly the input total (full conservation). -/
theorem C8_aggregation_conserves (t : CleanTable) (col : OptCol) (nm : String)
    (hcol : col ∈ t.presentCols) :
    ((analyze_with_stock t col nm).rows.map AggRow.SALES_QTY).sum
      = ((t.rows.filter (fun r => !(getOptCell col r == Cell.null))).map
          SalesRecord.SALES_QTY).sum ∧
    ((∀ r ∈ t.rows, getOptCell col r ≠ Cell.null) →
      ((analyze_with_stock t col nm).rows.map AggRow.SALES_QTY).sum
        = (t.rows.map SalesRecord.SALES_QTY).sum) := by
  have hmain : ((analyze_with_stock t col nm).rows.map AggRow.SALES_QTY).sum
      = ((t.rows.filter (fun r => !(getOptCell col r == Cell.null))).map
          SalesRecord.SALES_QTY).sum := by
    simp only [analyze_with_stock, if_pos hcol]
    have hperm : List.Perm
        ((List.insertionSort pctGe
          (groupAgg (getOptCell col) (fun r => !(getOptCell col r == Cell.null)) t.rows)).map
            AggRow.SALES_QTY)
        ((groupAgg (getOptCell col) (fun r => !(getOptCell col r == Cell.null)) t.rows).map
            AggRow.SALES_QTY) :=
      (List.perm_insertionSort pctGe _).map _
    rw [hperm.sum_eq]
    exact groupAgg_sum_sales _ _ _
  refine ⟨hmain, fun hall => ?_⟩
  rw [hmain]
  congr 1
  congr 1
  rw [List.filter_eq_self]
  intro r hr
  simpa using hall r hr

/-- Witness for C8 at a table all of whose rows carry a season value. -/
theorem C8_aggregation_conserves_witness :
    ((analyze_with_stock exC9 OptCol.Season "Season").rows.map AggRow.SALES_QTY).sum
      = (exC9.rows.map SalesRecord.SALES_QTY).sum :=
  (C8_aggregation_conserves exC9 OptCol.Season "Season" (by decide)).2 (by decide)

/-- Counterexample for C8 as stated: a row with a missing season value is
dropped by the groupby, so the aggregate total 5 differs from the input
total 12. -/
theorem C8_aggregation_conserves_counterexample :
    ((analyze_with_stock exC8 OptCol.Season "Season").rows.map AggRow.SALES_QTY).sum = 5 ∧
    (exC8.rows.map SalesRecord.SALES_QTY).sum = 12 ∧ (5 : ℚ) ≠ 12 := by
  refine ⟨?_, by norm_num [exC8, mkRec], by norm_num⟩
  norm_num +decide [analyze_with_stock, exC8, mkRec, groupAgg, firstDedup, firstDedupAux,
    getOptCell, salesPercentage, List.insertionSort, List.orderedInsert, pctGe]

/-- C9 (amended): every Aggregation View output is sorted descending by
`SALES_PERCENTAGE` (the fixed sort key of the implementation — not a
caller-specified key defaulting to the quantity measure), its grouping
column is renamed to the caller-supplied display label, and a dimension
absent from the schema yields an empty result rather than a failure. -/
theorem C9_view_shape (t : CleanTable) (col : OptCol) (nm : String) :
    (analyze_with_stock t col nm).rows.Pairwise
      (fun a b => b.SALES_PERCENTAGE ≤ a.SALES_PERCENTAGE) ∧
    (analyze_with_stock t col nm).label = nm ∧
    (col ∉ t.presentCols → (analyze_with_stock t col nm).rows = []) := by
  by_cases hcol : col ∈ t.presentCols
  · refine ⟨?_, by simp [analyze_with_stock, hcol], fun hn => absurd hcol hn⟩
    simp only [analyze_with_stock, if_pos hcol]
    exact List.sorted_insertionSort pctGe _
  · refine ⟨?_, by simp [analyze_with_stock, hcol], fun _ => by simp [analyze_with_stock, hcol]⟩
    simp [analyze_with_stock, hcol]

/-- Witness for C9: a dimension absent from the schema yields an empty
result. -/
theorem C9_view_shape_witness :
    (analyze_with_stock exC3 OptCol.Brand "Brand").rows = [] :=
  (C9_view_shape exC3 OptCol.Brand "Brand").2.2 (by decide)

/-- Counterexample for C9 as stated: the output of the view is not sorted
descending by the quantity measure (the claim's default sort key); the
implementation always sorts by the percentage. -/
theorem C9_view_shape_counterexample :
    ¬ ((analyze_with_stock exC9 OptCol.Season "Season").rows.Pairwise
        (fun a b => b.SALES_QTY ≤ a.SALES_QTY)) := by
  norm_num +decide [analyze_with_stock, exC9, mkRec, groupAgg, firstDedup, firstDedupAux,
    getOptCell, salesPercentage, List.insertionSort, List.orderedInsert, pctGe,
    List.filter_cons, List.filter_nil]
